import Mathlib

/-!
Verification of an open-addressing hash table (linear probing, tombstone
deletion, load-factor driven grow/shrink) against its natural-language
specification.

The embedding mirrors `src/hashtable.c`:

* A C pointer (`void *`) used as a key or value is modelled as a `Nat`,
  with `0` playing the role of the null pointer.  A slot's `key = 0`
  therefore means "no key stored here", exactly as `key == NULL` does in
  the C struct `ht_entry`.
* `size_t` counters are modelled as `Nat` with an explicit `% 2^64`
  wherever the C code can overflow or wrap (size increment/decrement,
  capacity doubling).
* The load-factor comparisons in C mix `size_t` with `double`
  (`size >= capacity * 0.75` and `size < capacity * (1 - 0.75)`).  For
  every capacity below 2^51 these comparisons are exact in IEEE double
  arithmetic and equivalent to the integer comparisons
  `4 * size ≥ 3 * capacity` and `4 * size < capacity`, which is how they
  are embedded here.
* `calloc` failure is modelled by a boolean oracle `allocOk` passed to
  the operations that may trigger a resize.
* The C probe loops (`while` loops) are embedded as fuel-indexed
  recursions.  The loop state is only the probe index (plus the
  write-once `first_deleted` slot for insert) and every exit condition
  depends only on the unchanged slot array, so the loop is periodic with
  period `capacity`: if no exit fires within `capacity` steps it never
  fires.  Calling a loop with fuel `capacity` and mapping fuel
  exhaustion to `none` is therefore an exact model of the C loop,
  `none` meaning the C code never terminates.
* The key/value dispose callbacks (`key_free`/`val_free`) only release
  memory; they do not influence the observable table state and are not
  modelled.
-/

/-- One slot of the backing array, mirroring C `struct ht_entry`
(`void *key; void *value; bool is_deleted;`), with `0` for `NULL`. -/
structure HtEntry where
  key : Nat
  value : Nat
  is_deleted : Bool
deriving Repr, DecidableEq

/-- The hash table, mirroring C `struct hashtable`.  The dispose
capabilities `key_free`/`val_free` have no observable effect and are
omitted. -/
structure Hashtable where
  entries : List HtEntry
  size : Nat
  capacity : Nat
  hash : Nat → Nat
  equals : Nat → Nat → Bool

/-- `ht->entries[i]` — out-of-range reads (which well-formed tables never
perform) return the virgin-empty slot. -/
def entryAt (es : List HtEntry) (i : Nat) : HtEntry :=
  es.getD i ⟨0, 0, false⟩

/-- 2^64, the modulus of C `size_t` arithmetic. -/
def U64 : Nat := 2 ^ 64

/-- Well-formedness of a table as produced by `ht_create` and preserved
by every operation: the slot array has exactly `capacity` cells and the
capacity is positive (the C minimum is 8). -/
def WFtable (ht : Hashtable) : Prop :=
  ht.entries.length = ht.capacity ∧ 0 < ht.capacity

/-- `ht_create` (hashtable.c:37-76).  The `equals == NULL` check and the
allocation-failure path cannot arise in the embedding (an equality
function is always supplied and allocation of the model list always
succeeds), so the successful path is modelled: capacity 0 becomes the
default 16, capacities below the floor 8 are clamped to 8, and all slots
start virgin-empty. -/
def ht_create (capacity : Nat) (hash : Nat → Nat) (equals : Nat → Nat → Bool) : Hashtable :=
  let c1 := if capacity = 0 then 16 else capacity
  let c2 := if c1 < 8 then 8 else c1
  { entries := List.replicate c2 ⟨0, 0, false⟩
    size := 0
    capacity := c2
    hash := hash
    equals := equals }

/-- The inner placement loop of `_ht_resize` (hashtable.c:272-274):
`while (new_entries[index].key != NULL) index = (index + 1) % new_capacity;`.
Returns the index of the first free slot, `none` if the loop never
exits (fuel `cap` is exact, see the header comment). -/
def findFreeSlot (es : List HtEntry) (cap : Nat) : Nat → Nat → Option Nat
  | 0, _ => none
  | fuel + 1, idx =>
    if (entryAt es idx).key ≠ 0 then
      findFreeSlot es cap fuel ((idx + 1) % cap)
    else
      some idx

/-- The rehash sweep of `_ht_resize` (hashtable.c:268-279): every
occupied, non-tombstoned old slot is rehomed under the new capacity by
linear probing, its tombstone flag cleared, and `actual_size` counts the
rehomed entries. -/
def rehashAll (hash : Nat → Nat) (cap : Nat) :
    List HtEntry → List HtEntry → Nat → Option (List HtEntry × Nat)
  | [], acc, n => some (acc, n)
  | e :: rest, acc, n =>
    if e.key ≠ 0 ∧ e.is_deleted = false then
      match findFreeSlot acc cap cap (hash e.key % cap) with
      | none => none
      | some idx => rehashAll hash cap rest (acc.set idx { e with is_deleted := false }) (n + 1)
    else
      rehashAll hash cap rest acc n

/-- The capacity floor of `_ht_resize` (hashtable.c:254-256):
`if (new_capacity < HT_MIN_CAPACITY) new_capacity = HT_MIN_CAPACITY;`. -/
def clampCap (n : Nat) : Nat := if n < 8 then 8 else n

/-- `_ht_resize` (hashtable.c:247-290).  `allocOk` tells whether the
`calloc` of the new slot array succeeds; on failure the function returns
`-1` having touched nothing.  On success the old entries are rehashed
into a fresh virgin array of the clamped capacity and `size` is set to
the recomputed `actual_size`. -/
def ht_resize (allocOk : Bool) (ht : Hashtable) (new_capacity : Nat) : Option (Int × Hashtable) :=
  if allocOk = false then
    some (-1, ht)
  else
    match rehashAll ht.hash (clampCap new_capacity) ht.entries
        (List.replicate (clampCap new_capacity) ⟨0, 0, false⟩) 0 with
    | none => none
    | some (newEntries, actualSize) =>
      some (0, { ht with
        entries := newEntries
        size := actualSize
        capacity := clampCap new_capacity })

/-- Result of the `ht_insert` probe loop: either the key was found at a
slot, or the loop stopped at a virgin-empty slot carrying the recorded
`first_deleted` reuse candidate. -/
inductive InsertStop where
  | found (idx : Nat)
  | empty (idx : Nat) (firstDeleted : Option Nat)
deriving Repr, DecidableEq

/-- The probe loop of `ht_insert` (hashtable.c:128-145):
`while (entries[index].key != NULL || entries[index].is_deleted)` — the
first tombstoned slot is remembered in `first_deleted`, an equal key
terminates with `found`, a virgin-empty slot terminates with `empty`.
`none` means the C loop never exits (fuel `cap` is exact). -/
def insertLoop (es : List HtEntry) (cap : Nat) (eqf : Nat → Nat → Bool) (key : Nat) :
    Nat → Nat → Option Nat → Option InsertStop
  | 0, _, _ => none
  | fuel + 1, idx, fd =>
    if (entryAt es idx).key ≠ 0 ∨ (entryAt es idx).is_deleted = true then
      if (entryAt es idx).key ≠ 0 ∧ eqf (entryAt es idx).key key = true then
        some (.found idx)
      else
        insertLoop es cap eqf key fuel ((idx + 1) % cap)
          (if (entryAt es idx).is_deleted = true ∧ fd = none then some idx else fd)
    else
      some (.empty idx fd)

/-- The placement step of `ht_insert` (hashtable.c:147-160) applied to
the probe-loop result: on `found` overwrite the value in place (key
kept, tombstone flag cleared); on `empty` place the new pair into the
remembered tombstoned slot if there is one — in which case `size` is
NOT incremented — or else into the virgin slot with `size + 1`. -/
def insertFinish (ht1 : Hashtable) (key value : Nat) :
    Option InsertStop → Option (Int × Hashtable)
  | none => none
  | some (.found i) =>
    some (0, { ht1 with
      entries := ht1.entries.set i ⟨(entryAt ht1.entries i).key, value, false⟩ })
  | some (.empty i none) =>
    some (0, { ht1 with
      entries := ht1.entries.set i ⟨key, value, false⟩
      size := (ht1.size + 1) % U64 })
  | some (.empty _ (some j)) =>
    some (0, { ht1 with entries := ht1.entries.set j ⟨key, value, false⟩ })

/-- The part of `ht_insert` after the optional grow: abort with `-1` if
the grow failed, otherwise run the probe loop and place or overwrite. -/
def insertResolve (key value : Nat) : Option (Int × Hashtable) → Option (Int × Hashtable)
  | none => none
  | some (r, ht1) =>
    if r ≠ 0 then
      some (-1, ht1)
    else
      insertFinish ht1 key value
        (insertLoop ht1.entries ht1.capacity ht1.equals key ht1.capacity
          (ht1.hash key % ht1.capacity) none)

/-- `ht_insert` (hashtable.c:112-161).  A null key fails with `-1`.  When
`size >= capacity * 0.75` a grow to `capacity * 2` runs first; its
allocation failure aborts the insert with `-1`.  Then the probe loop
either finds the key (value overwritten, tombstone flag cleared, key
object kept) or stops at a virgin slot; a recorded tombstoned slot is
reused in preference to the virgin slot, and `size` is incremented only
when no tombstoned slot was reused.  `none` models a non-terminating
probe loop. -/
def ht_insert (allocOk : Bool) (ht : Hashtable) (key value : Nat) : Option (Int × Hashtable) :=
  if key = 0 then
    some (-1, ht)
  else
    insertResolve key value
      (if ht.size * 4 ≥ ht.capacity * 3 then
        ht_resize allocOk ht (ht.capacity * 2 % U64)
      else
        some (0, ht))

/-- The probe loop of `ht_remove` (hashtable.c:179-202):
`while (entries[index].key != NULL)` — note that, unlike `ht_get`, this
loop stops at ANY slot whose key is null, tombstoned or not.  Returns
`some (some i)` when an equal key sits at `i`, `some none` when the loop
exits without a match, `none` when the C loop never exits. -/
def removeLoop (es : List HtEntry) (cap : Nat) (eqf : Nat → Nat → Bool) (key : Nat) :
    Nat → Nat → Option (Option Nat)
  | 0, _ => none
  | fuel + 1, idx =>
    if (entryAt es idx).key ≠ 0 then
      if eqf (entryAt es idx).key key = true then
        some (some idx)
      else
        removeLoop es cap eqf key fuel ((idx + 1) % cap)
    else
      some none

/-- The unlink step of `ht_remove` (hashtable.c:180-205) applied to the
probe-loop result: a found slot is tombstoned (`key = value = NULL`,
`is_deleted = true`) and `size` decremented (a `size_t` decrement,
wrapping at 0); if the decremented size falls below `capacity * 0.25` a
shrink to `capacity / 2` runs, and its allocation failure makes the
whole call return `-1` (the removal itself is not rolled back).  A key
that was not found returns `-1` with no mutation. -/
def removeResolve (allocOk : Bool) (ht : Hashtable) :
    Option (Option Nat) → Option (Int × Hashtable)
  | none => none
  | some none => some (-1, ht)
  | some (some i) =>
    let ht1 : Hashtable := { ht with
      entries := ht.entries.set i ⟨0, 0, true⟩
      size := (ht.size + (U64 - 1)) % U64 }
    if ht1.size * 4 < ht1.capacity then
      match ht_resize allocOk ht1 (ht1.capacity / 2) with
      | none => none
      | some (r, ht2) => if r ≠ 0 then some (-1, ht2) else some (0, ht2)
    else
      some (0, ht1)

/-- `ht_remove` (hashtable.c:172-206): reject a null key, then probe as
`removeLoop` does and unlink via `removeResolve`. -/
def ht_remove (allocOk : Bool) (ht : Hashtable) (key : Nat) : Option (Int × Hashtable) :=
  if key = 0 then
    some (-1, ht)
  else
    removeResolve allocOk ht
      (removeLoop ht.entries ht.capacity ht.equals key ht.capacity
        (ht.hash key % ht.capacity))

/-- The three ways `ht_get` can return, one per `return` site of the C
code: a value found at a matching slot (line 231), not-found at a
virgin-empty slot (line 227), not-found after probing every slot
(line 237). -/
inductive GetOutcome where
  | foundVal (v : Nat)
  | notFoundEmpty
  | notFoundFull
deriving Repr, DecidableEq

/-- The probe loop of `ht_get` (hashtable.c:224-234): a do-while bounded
by a full wrap back to the start index, i.e. at most `capacity` body
executions, which is the fuel this model is run with.  A virgin-empty
slot (null key, not tombstoned) stops the search; a tombstoned slot does
not. -/
def getLoopO (es : List HtEntry) (cap : Nat) (eqf : Nat → Nat → Bool) (key : Nat) :
    Nat → Nat → GetOutcome
  | 0, _ => .notFoundFull
  | fuel + 1, idx =>
    if (entryAt es idx).key = 0 ∧ (entryAt es idx).is_deleted = false then
      .notFoundEmpty
    else if (entryAt es idx).key ≠ 0 ∧ eqf (entryAt es idx).key key = true then
      .foundVal (entryAt es idx).value
    else
      getLoopO es cap eqf key fuel ((idx + 1) % cap)

/-- Collapse a `GetOutcome` to the `void *` the C function returns:
the stored value on a hit, `NULL` (0) on either kind of miss. -/
def eraseOutcome : GetOutcome → Nat
  | .foundVal v => v
  | .notFoundEmpty => 0
  | .notFoundFull => 0

/-- The outcome of `ht_get`'s probe on a (non-null) table and key. -/
def getOutcome (ht : Hashtable) (key : Nat) : GetOutcome :=
  getLoopO ht.entries ht.capacity ht.equals key ht.capacity (ht.hash key % ht.capacity)

/-- `ht_get` (hashtable.c:215-238).  A null table or null key returns
`NULL`; otherwise the value found by the probe, or `NULL`. -/
def ht_get (o : Option Hashtable) (key : Nat) : Nat :=
  match o with
  | none => 0
  | some ht => if key = 0 then 0 else eraseOutcome (getOutcome ht key)

/-- `ht_clear` (hashtable.c:325-342): every slot whose key is non-null is
disposed and reset to the virgin state; a slot with a null key — in
particular a tombstoned slot — is left untouched; `size` becomes 0 and
the capacity is not changed. -/
def ht_clear (ht : Hashtable) : Hashtable :=
  { ht with
    entries := ht.entries.map (fun e => if e.key ≠ 0 then ⟨0, 0, false⟩ else e)
    size := 0 }

/-- `ht_size` (hashtable.c:317-319): 0 on a null table. -/
def ht_size (o : Option Hashtable) : Nat :=
  match o with
  | none => 0
  | some ht => ht.size

/-- `ht_capacity` (hashtable.c:321-323): 0 on a null table. -/
def ht_capacity (o : Option Hashtable) : Nat :=
  match o with
  | none => 0
  | some ht => ht.capacity

/-- `ht_load_factor` (hashtable.c:312-315): `0.0f` on a null table, else
`(float)size / (float)capacity`.  The float quotient is idealised as a
rational; the null branch, the one the claims exercise, is the literal
constant `0.0f` in C and `0` here, with no division performed. -/
def ht_load_factor (o : Option Hashtable) : ℚ :=
  match o with
  | none => 0
  | some ht => (ht.size : ℚ) / (ht.capacity : ℚ)

/-- The number of live entries actually stored in a slot array: slots
with a key and no tombstone flag — what `size` is supposed to count and
what `_ht_resize` recomputes as `actual_size`. -/
def liveCount (es : List HtEntry) : Nat :=
  (es.filter (fun e => e.key != 0 && !e.is_deleted)).length

/-! ### The lookup probe characterised against the spec (claim C7) -/

/-- The index probed at step `s` from home index `h`: start at `h` and
step forward by 1 modulo the capacity (spec 4.4). -/
def specProbe (cap h s : Nat) : Nat := (h + s) % cap

/-- Spec-side stop condition at probe step `s`: the slot is virgin-empty
(terminate, not-found) or occupied by an equal key (terminate, found).
A tombstoned slot is no stop. -/
def specStop (es : List HtEntry) (cap : Nat) (eqf : Nat → Nat → Bool) (k h : Nat)
    (s : Nat) : Bool :=
  decide ((entryAt es (specProbe cap h s)).key = 0 ∧
      (entryAt es (specProbe cap h s)).is_deleted = false) ||
  decide ((entryAt es (specProbe cap h s)).key ≠ 0 ∧
      eqf (entryAt es (specProbe cap h s)).key k = true)

/-- The outcome the spec assigns to a stop step: the stored value on a
match, not-found on the virgin-empty slot. -/
def specOutcomeAt (es : List HtEntry) (cap : Nat) (eqf : Nat → Nat → Bool) (k h : Nat)
    (s : Nat) : GetOutcome :=
  if (entryAt es (specProbe cap h s)).key ≠ 0 ∧
      eqf (entryAt es (specProbe cap h s)).key k = true then
    .foundVal (entryAt es (specProbe cap h s)).value
  else
    .notFoundEmpty

/-- Lookup as the spec words it (section 4.4): probe starting at
`hash(key) % capacity`, stepping +1 mod capacity; the first stop among
the first `capacity` steps decides the result (value at a match,
not-found at a virgin-empty slot), and probing all `capacity` slots
without a stop reports not-found. -/
def lookupSpec (ht : Hashtable) (k : Nat) : GetOutcome :=
  match (List.range ht.capacity).find?
      (specStop ht.entries ht.capacity ht.equals k (ht.hash k % ht.capacity)) with
  | none => .notFoundFull
  | some s => specOutcomeAt ht.entries ht.capacity ht.equals k (ht.hash k % ht.capacity) s

/-! ### Concrete tables reached through the public operations

The scenarios below drive the model with a caller-supplied constant hash
(forcing every key onto one probe chain, as an adversarial caller can)
and numeric-equality keys, mirroring how the C API is parameterised by
caller capabilities. -/

/-- A caller-supplied hash putting every key in bucket 0. -/
def hzero : Nat → Nat := fun _ => 0

/-- Key equality capability: plain equality of the (non-null) key
values. -/
def eqb : Nat → Nat → Bool := fun a b => a == b

/-- Run one successful insert (return value 0) inside an operation
chain; any failure or divergence collapses the chain to `none`. -/
def insOk (k v : Nat) (o : Option Hashtable) : Option Hashtable :=
  o.bind fun t =>
    match ht_insert true t k v with
    | some (0, t') => some t'
    | _ => none

/-- Run one successful remove (return value 0) inside an operation
chain. -/
def rmOk (k : Nat) (o : Option Hashtable) : Option Hashtable :=
  o.bind fun t =>
    match ht_remove true t k with
    | some (0, t') => some t'
    | _ => none

/-- A fresh capacity-8 table with the constant hash. -/
def base8 : Option Hashtable := some (ht_create 8 hzero eqb)

/-- insert 1,2,3 then remove 1: keys 2 and 3 sit behind the tombstone
that slot 0 became. -/
def tombO : Option Hashtable := rmOk 1 (insOk 3 30 (insOk 2 20 (insOk 1 10 base8)))

/-- The table behind `tombO`. -/
def tTomb : Hashtable := tombO.getD (ht_create 8 hzero eqb)

/-- `tTomb` followed by inserting the fresh key 4, which is placed into
the tombstoned slot 0. -/
def reuseO : Option Hashtable := insOk 4 40 tombO

/-- The table behind `reuseO`. -/
def tReuse : Hashtable := reuseO.getD (ht_create 8 hzero eqb)

/-- Saturating scenario: fill to 6 keys, tombstone the last 3 of the
chain (back to front, so each removal's probe crosses no tombstone),
refill the tombstones with 3 fresh keys (which does not raise `size`),
then two more fresh keys occupy the remaining virgin slots — every one
of the 8 slots ends up occupied while `size` is only 5, so no grow is
ever triggered. -/
def satO : Option Hashtable :=
  insOk 11 110 (insOk 10 100 (insOk 9 90 (insOk 8 80 (insOk 7 70
    (rmOk 4 (rmOk 5 (rmOk 6
      (insOk 6 60 (insOk 5 50 (insOk 4 40 (insOk 3 30 (insOk 2 20 (insOk 1 10 base8)))))))))))))

/-- The saturated table behind `satO`. -/
def tSat : Hashtable := satO.getD (ht_create 8 hzero eqb)

/-- A capacity-8 table holding the single key 1: its removal drops
`size` to 0, below `0.25 * 8`, so a shrink is triggered. -/
def oneO : Option Hashtable := insOk 1 10 base8
def tOne : Hashtable := oneO.getD (ht_create 8 hzero eqb)

/-- A capacity-8 table with 6 keys: `6 * 4 ≥ 8 * 3`, so the very next
insert triggers a grow. -/
def sixO : Option Hashtable :=
  insOk 6 60 (insOk 5 50 (insOk 4 40 (insOk 3 30 (insOk 2 20 (insOk 1 10 base8)))))
def tSix : Hashtable := sixO.getD (ht_create 8 hzero eqb)

/-- A fresh capacity-8 table used by witness instantiations. -/
def tFresh : Hashtable := ht_create 8 hzero eqb

/-- `tFresh` after inserting key 7 with value 42 (the state `ht_insert`
produces, spelled out). -/
def tFresh7 : Hashtable :=
  { entries := ⟨7, 42, false⟩ :: List.replicate 7 ⟨0, 0, false⟩
    size := 1
    capacity := 8
    hash := hzero
    equals := eqb }

/-- `tFresh` after inserting key 9 with the null value 0. -/
def tFresh9 : Hashtable :=
  { entries := ⟨9, 0, false⟩ :: List.replicate 7 ⟨0, 0, false⟩
    size := 1
    capacity := 8
    hash := hzero
    equals := eqb }

/-! ### Basic slot-array lemmas -/

theorem entryAt_set_self (es : List HtEntry) (i : Nat) (a : HtEntry) (h : i < es.length) :
    entryAt (es.set i a) i = a := by
  simp [entryAt, List.getD_eq_getElem?_getD, List.getElem?_set_self h]

theorem entryAt_set_ne (es : List HtEntry) (i j : Nat) (a : HtEntry) (h : i ≠ j) :
    entryAt (es.set i a) j = entryAt es j := by
  simp [entryAt, List.getD_eq_getElem?_getD, List.getElem?_set_ne h]

theorem entryAt_oob (es : List HtEntry) (i : Nat) (h : es.length ≤ i) :
    entryAt es i = ⟨0, 0, false⟩ := by
  simp [entryAt, List.getD_eq_getElem?_getD, List.getElem?_eq_none h]

/-! ### Claim theorems: introspection and error handling -/

/-- C10: the introspection queries are total on a NULL table handle —
`ht_size`, `ht_capacity` and `ht_load_factor` all return 0 for a null
table, with no division performed. -/
theorem claim_C10_null_introspection :
    ht_size none = 0 ∧ ht_capacity none = 0 ∧ ht_load_factor none = 0 :=
  ⟨rfl, rfl, rfl⟩

/-- C8: when an insert triggers a grow-resize whose allocation fails,
`ht_insert` returns `-1` and the resulting table is literally the input
table — entries, count and capacity all untouched. -/
theorem claim_C8_growfail_no_mutation (ht : Hashtable) (k v : Nat)
    (hk : k ≠ 0) (htrig : ht.size * 4 ≥ ht.capacity * 3) :
    ht_insert false ht k v = some (-1, ht) := by
  unfold ht_insert ht_resize
  rw [if_neg hk, if_pos htrig]
  norm_num [insertResolve]

/-- Witness for C8: a reachable capacity-8 table with 6 live keys (load
factor 0.75) makes the next insert trigger a grow; with allocation
failing the insert reports `-1` and the table is unchanged. -/
theorem claim_C8_witness : ht_insert false tSix 7 70 = some (-1, tSix) :=
  claim_C8_growfail_no_mutation tSix 7 70 (by decide) (by decide)

/-- C4 counterexample: in the reachable capacity-8 table holding only
key 1, removing key 1 succeeds in unlinking the entry and triggers a
shrink; when that shrink's allocation fails the C code returns `-1`,
not the overall success the claim asserts. -/
theorem claim_C4_counterexample :
    oneO.isSome = true ∧
    (ht_remove false tOne 1).map Prod.fst = some (-1) ∧
    ¬ (ht_remove false tOne 1).map Prod.fst = some 0 := by decide

/-- C4 amended: if `ht_remove` finds the key, tombstones the slot and
decrements the count, and the triggered shrink-resize fails to
allocate, the call reports failure (`-1`) — yet the removal itself is
not rolled back: the returned table keeps the tombstoned slot and the
decremented count. -/
theorem claim_C4_amended_shrinkfail (ht : Hashtable) (k i : Nat) (hk : k ≠ 0)
    (hfind : removeLoop ht.entries ht.capacity ht.equals k ht.capacity
      (ht.hash k % ht.capacity) = some (some i))
    (hshrink : ((ht.size + (U64 - 1)) % U64) * 4 < ht.capacity) :
    ht_remove false ht k =
      some (-1, { ht with
        entries := ht.entries.set i ⟨0, 0, true⟩
        size := (ht.size + (U64 - 1)) % U64 }) := by
  unfold ht_remove
  rw [if_neg hk, hfind]
  norm_num [removeResolve, ht_resize, hshrink]

/-- Witness for C4's amended theorem at the concrete single-entry
table. -/
theorem claim_C4_amended_witness :
    ht_remove false tOne 1 =
      some (-1, { tOne with
        entries := tOne.entries.set 0 ⟨0, 0, true⟩
        size := (tOne.size + (U64 - 1)) % U64 }) :=
  claim_C4_amended_shrinkfail tOne 1 0 (by decide) (by decide) (by decide)

/-- C3 counterexample: in the reachable table `tTomb` slot 0 is
tombstoned; after `ht_clear` that slot still carries the tombstone
flag, so not every slot is virgin-empty as the claim states. -/
theorem claim_C3_counterexample :
    tombO.isSome = true ∧ (entryAt (ht_clear tTomb).entries 0).is_deleted = true := by decide

/-- C3 amended: `ht_clear` zeroes the count, keeps the capacity, and
resets exactly the slots holding a key to virgin-empty; a slot without
a key — in particular a tombstoned slot — is left as it was, tombstone
flag included. -/
theorem claim_C3_amended_clear (ht : Hashtable) :
    (ht_clear ht).size = 0 ∧ (ht_clear ht).capacity = ht.capacity ∧
    ∀ i, entryAt (ht_clear ht).entries i =
      (if (entryAt ht.entries i).key ≠ 0 then ⟨0, 0, false⟩ else entryAt ht.entries i) := by
  refine ⟨rfl, rfl, fun i => ?_⟩
  show entryAt (ht.entries.map fun e => if e.key ≠ 0 then (⟨0, 0, false⟩ : HtEntry) else e) i = _
  unfold entryAt
  rw [List.getD_eq_getElem?_getD, List.getD_eq_getElem?_getD, List.getElem?_map]
  rcases hE : ht.entries[i]? with _ | e
  · simp
  · simp

/-- C1: inserting the fresh key 4 (absent from `tTomb`, whose probe for
it ends at a virgin slot) succeeds and places it into the tombstoned
slot 0, but the live-entry count stays 2 while the table now holds 3
live entries — `size` is not incremented on tombstone reuse, contrary
to the claim and to `_ht_resize`'s own notion of `actual_size`. -/
theorem claim_C1_size_not_incremented :
    reuseO.isSome = true ∧
    getOutcome tTomb 4 = .notFoundEmpty ∧
    ht_size (some tReuse) = 2 ∧
    liveCount tReuse.entries = 3 ∧
    ht_get (some tReuse) 4 = 40 := by decide

/-- C2: in the reachable table `tTomb` (keys 2 and 3 sitting past the
tombstone in slot 0 of their shared probe chain), `ht_get` finds key 2
but `ht_remove` reports `-1` and mutates nothing: its probe loop stops
at the tombstoned slot instead of continuing through it as lookup
does. -/
theorem claim_C2_remove_stops_at_tombstone :
    tombO.isSome = true ∧
    ht_get (some tTomb) 2 = 20 ∧
    (ht_remove true tTomb 2).map Prod.fst = some (-1) ∧
    (ht_remove true tTomb 2).map (fun r => (r.2.entries, r.2.size, r.2.capacity))
      = some (tTomb.entries, tTomb.size, tTomb.capacity) := by decide

/-! ### Saturated-table divergence (claim C5) -/

/-- If every slot holds a non-null key and none of them equals the
probed key, the `ht_remove` probe loop never exits, whatever fuel it is
given: its exit conditions are false at every index and the index just
cycles mod `cap`. -/
theorem removeLoop_stuck (es : List HtEntry) (cap : Nat) (eqf : Nat → Nat → Bool) (k : Nat)
    (hcap : 0 < cap)
    (hall : ∀ idx, idx < cap →
      (entryAt es idx).key ≠ 0 ∧ eqf (entryAt es idx).key k = false) :
    ∀ fuel idx, idx < cap → removeLoop es cap eqf k fuel idx = none := by
  intro fuel
  induction fuel with
  | zero => intro idx _; rfl
  | succ n ih =>
    intro idx hidx
    obtain ⟨hkey, heq⟩ := hall idx hidx
    unfold removeLoop
    rw [if_pos hkey, if_neg (by simp [heq])]
    exact ih _ (Nat.mod_lt _ hcap)

/-- If every slot holds a non-null key and none of them equals the
probed key, the `ht_insert` probe loop never exits either: every slot
keeps the loop running and never matches. -/
theorem insertLoop_stuck (es : List HtEntry) (cap : Nat) (eqf : Nat → Nat → Bool) (k : Nat)
    (hcap : 0 < cap)
    (hall : ∀ idx, idx < cap →
      (entryAt es idx).key ≠ 0 ∧ eqf (entryAt es idx).key k = false) :
    ∀ fuel idx fd, idx < cap → insertLoop es cap eqf k fuel idx fd = none := by
  intro fuel
  induction fuel with
  | zero => intro idx fd _; rfl
  | succ n ih =>
    intro idx fd hidx
    obtain ⟨hkey, heq⟩ := hall idx hidx
    unfold insertLoop
    rw [if_pos (Or.inl hkey), if_neg (by simp [heq])]
    exact ih _ _ (Nat.mod_lt _ hcap)

/-- C5: the probe loops are NOT bounded by the capacity.  `tSat` is
reached through 11 public inserts and 3 removes, every one of its 8
slots holds a key, and its (undercounted) `size` never triggers a
grow.  Removing the absent key 99 or inserting the fresh key 12 then
loops forever: the loop exits for no amount of fuel — in particular it
has not stopped after `capacity` probes — and the model of the full
operations returns `none` (non-termination). -/
theorem claim_C5_probe_loops_unbounded :
    satO.isSome = true ∧
    (∀ fuel, removeLoop tSat.entries tSat.capacity tSat.equals 99 fuel
      (tSat.hash 99 % tSat.capacity) = none) ∧
    (∀ fuel fd, insertLoop tSat.entries tSat.capacity tSat.equals 12 fuel
      (tSat.hash 12 % tSat.capacity) fd = none) ∧
    ht_remove true tSat 99 = none ∧
    ht_insert true tSat 12 120 = none := by
  have hcap : 0 < tSat.capacity := by decide
  have hall99 : ∀ idx, idx < tSat.capacity →
      (entryAt tSat.entries idx).key ≠ 0 ∧
      tSat.equals (entryAt tSat.entries idx).key 99 = false := by decide
  have hall12 : ∀ idx, idx < tSat.capacity →
      (entryAt tSat.entries idx).key ≠ 0 ∧
      tSat.equals (entryAt tSat.entries idx).key 12 = false := by decide
  refine ⟨by decide,
    fun fuel => removeLoop_stuck _ _ _ _ hcap hall99 fuel _ (Nat.mod_lt _ hcap),
    fun fuel fd => insertLoop_stuck _ _ _ _ hcap hall12 fuel _ fd (Nat.mod_lt _ hcap),
    ?_, ?_⟩
  · unfold ht_remove
    rw [if_neg (by decide),
      removeLoop_stuck _ _ _ _ hcap hall99 _ _ (Nat.mod_lt _ hcap)]
    rfl
  · unfold ht_insert
    rw [if_neg (by decide), if_neg (by decide)]
    have hstuck := insertLoop_stuck tSat.entries tSat.capacity tSat.equals 12 hcap hall12
      tSat.capacity (tSat.hash 12 % tSat.capacity) none (Nat.mod_lt _ hcap)
    simp [insertResolve, hstuck, insertFinish]

/-! ### Properties of the insert probe loop (towards the round-trip) -/

/-- A `found i` exit means the slot at `i` really holds a non-null key
equal to the probed key — in the original, unmodified slot array. -/
theorem insertLoop_found_props (es : List HtEntry) (cap : Nat) (eqf : Nat → Nat → Bool)
    (k : Nat) :
    ∀ fuel idx fd i, insertLoop es cap eqf k fuel idx fd = some (.found i) →
      (entryAt es i).key ≠ 0 ∧ eqf (entryAt es i).key k = true := by
  intro fuel
  induction fuel with
  | zero => intro idx fd i h; exact absurd h (by simp [insertLoop])
  | succ n ih =>
    intro idx fd i h
    unfold insertLoop at h
    by_cases h1 : (entryAt es idx).key ≠ 0 ∨ (entryAt es idx).is_deleted = true
    · rw [if_pos h1] at h
      by_cases h2 : (entryAt es idx).key ≠ 0 ∧ eqf (entryAt es idx).key k = true
      · rw [if_pos h2] at h
        obtain rfl : idx = i := by simpa using h
        exact h2
      · rw [if_neg h2] at h
        exact ih _ _ _ h
    · rw [if_neg h1] at h
      simp at h

/-- An `empty i _` exit means the slot at `i` is virgin-empty in the
original slot array. -/
theorem insertLoop_empty_props (es : List HtEntry) (cap : Nat) (eqf : Nat → Nat → Bool)
    (k : Nat) :
    ∀ fuel idx fd i fd', insertLoop es cap eqf k fuel idx fd = some (.empty i fd') →
      (entryAt es i).key = 0 ∧ (entryAt es i).is_deleted = false := by
  intro fuel
  induction fuel with
  | zero => intro idx fd i fd' h; exact absurd h (by simp [insertLoop])
  | succ n ih =>
    intro idx fd i fd' h
    unfold insertLoop at h
    by_cases h1 : (entryAt es idx).key ≠ 0 ∨ (entryAt es idx).is_deleted = true
    · rw [if_pos h1] at h
      by_cases h2 : (entryAt es idx).key ≠ 0 ∧ eqf (entryAt es idx).key k = true
      · rw [if_pos h2] at h; simp at h
      · rw [if_neg h2] at h
        exact ih _ _ _ _ h
    · rw [if_neg h1] at h
      simp only [not_or, ne_eq, not_not, Bool.not_eq_true] at h1
      obtain ⟨rfl, rfl⟩ : idx = i ∧ fd = fd' := by simpa using h
      exact h1

/-- The exit index of an `empty` exit is below the capacity whenever the
loop starts below the capacity. -/
theorem insertLoop_empty_lt (es : List HtEntry) (cap : Nat) (eqf : Nat → Nat → Bool)
    (k : Nat) (hcap : 0 < cap) :
    ∀ fuel idx fd i fd', idx < cap →
      insertLoop es cap eqf k fuel idx fd = some (.empty i fd') → i < cap := by
  intro fuel
  induction fuel with
  | zero => intro idx fd i fd' _ h; exact absurd h (by simp [insertLoop])
  | succ n ih =>
    intro idx fd i fd' hidx h
    unfold insertLoop at h
    by_cases h1 : (entryAt es idx).key ≠ 0 ∨ (entryAt es idx).is_deleted = true
    · rw [if_pos h1] at h
      by_cases h2 : (entryAt es idx).key ≠ 0 ∧ eqf (entryAt es idx).key k = true
      · rw [if_pos h2] at h; simp at h
      · rw [if_neg h2] at h
        exact ih _ _ _ _ (Nat.mod_lt _ hcap) h
    · rw [if_neg h1] at h
      obtain ⟨rfl, rfl⟩ : idx = i ∧ fd = fd' := by simpa using h
      exact hidx

/-- Once `first_deleted` has been recorded it never changes: an `empty`
exit reached from a call whose `fd` is already `some j` reports exactly
`some j`. -/
theorem insertLoop_fd_frozen (es : List HtEntry) (cap : Nat) (eqf : Nat → Nat → Bool)
    (k : Nat) :
    ∀ fuel idx j i fd', insertLoop es cap eqf k fuel idx (some j) = some (.empty i fd') →
      fd' = some j := by
  intro fuel
  induction fuel with
  | zero => intro idx j i fd' h; exact absurd h (by simp [insertLoop])
  | succ n ih =>
    intro idx j i fd' h
    unfold insertLoop at h
    by_cases h1 : (entryAt es idx).key ≠ 0 ∨ (entryAt es idx).is_deleted = true
    · rw [if_pos h1] at h
      by_cases h2 : (entryAt es idx).key ≠ 0 ∧ eqf (entryAt es idx).key k = true
      · rw [if_pos h2] at h; simp at h
      · rw [if_neg h2, if_neg (by simp)] at h
        exact ih _ _ _ _ h
    · rw [if_neg h1] at h
      have hinj : idx = i ∧ some j = fd' := by simpa using h
      exact hinj.2.symm

/-- When the loop starts with no recorded tombstone and exits `empty`
with `first_deleted = some j`, the slot at `j` is tombstoned in the
original slot array (and `j` is in range). -/
theorem insertLoop_fd_deleted (es : List HtEntry) (cap : Nat) (eqf : Nat → Nat → Bool)
    (k : Nat) (hcap : 0 < cap) :
    ∀ fuel idx i j, idx < cap →
      insertLoop es cap eqf k fuel idx none = some (.empty i (some j)) →
      j < cap ∧ (entryAt es j).is_deleted = true := by
  intro fuel
  induction fuel with
  | zero => intro idx i j _ h; exact absurd h (by simp [insertLoop])
  | succ n ih =>
    intro idx i j hidx h
    unfold insertLoop at h
    by_cases h1 : (entryAt es idx).key ≠ 0 ∨ (entryAt es idx).is_deleted = true
    · rw [if_pos h1] at h
      by_cases h2 : (entryAt es idx).key ≠ 0 ∧ eqf (entryAt es idx).key k = true
      · rw [if_pos h2] at h; simp at h
      · rw [if_neg h2] at h
        by_cases hdel : (entryAt es idx).is_deleted = true
        · rw [if_pos ⟨hdel, rfl⟩] at h
          obtain rfl : j = idx := by
            simpa using (insertLoop_fd_frozen es cap eqf k n _ idx _ _ h)
          exact ⟨hidx, hdel⟩
        · rw [if_neg (fun hc => hdel hc.1)] at h
          exact ih _ _ _ (Nat.mod_lt _ hcap) h
    · rw [if_neg h1] at h
      simp at h

/-- After an overwrite at the `found` slot, `ht_get`'s probe walks the
same chain the insert probe walked and returns the new value. -/
theorem getLoopO_after_found (es : List HtEntry) (cap : Nat) (eqf : Nat → Nat → Bool)
    (k v : Nat) :
    ∀ fuel idx fd i, insertLoop es cap eqf k fuel idx fd = some (.found i) →
      getLoopO (es.set i ⟨(entryAt es i).key, v, false⟩) cap eqf k fuel idx = .foundVal v := by
  intro fuel
  induction fuel with
  | zero => intro idx fd i h; exact absurd h (by simp [insertLoop])
  | succ n ih =>
    intro idx fd i h
    obtain ⟨hik, hie⟩ := insertLoop_found_props es cap eqf k (n + 1) idx fd i h
    have hilt : i < es.length := by
      by_contra hle
      push_neg at hle
      rw [entryAt_oob es i hle] at hik
      exact hik rfl
    unfold insertLoop at h
    by_cases h1 : (entryAt es idx).key ≠ 0 ∨ (entryAt es idx).is_deleted = true
    · rw [if_pos h1] at h
      by_cases h2 : (entryAt es idx).key ≠ 0 ∧ eqf (entryAt es idx).key k = true
      · rw [if_pos h2] at h
        obtain rfl : idx = i := by simpa using h
        unfold getLoopO
        rw [entryAt_set_self es idx _ hilt]
        simp [hik, hie]
      · rw [if_neg h2] at h
        have hne : i ≠ idx := fun he => h2 (he ▸ ⟨hik, hie⟩)
        unfold getLoopO
        rw [entryAt_set_ne es i idx _ hne]
        have hc1 : ¬((entryAt es idx).key = 0 ∧ (entryAt es idx).is_deleted = false) := by
          intro hc
          rcases h1 with hk1 | hd1
          · exact hk1 hc.1
          · rw [hd1] at hc; exact absurd hc.2 (by simp)
        rw [if_neg hc1, if_neg h2]
        exact ih _ _ _ h
    · rw [if_neg h1] at h
      simp at h

/-- After placing a fresh key into the virgin slot that terminated the
probe, `ht_get` finds it there: every earlier slot of the chain is
unchanged, occupied (or tombstoned) and not equal to the key. -/
theorem getLoopO_after_fresh (es : List HtEntry) (cap : Nat) (eqf : Nat → Nat → Bool)
    (k v : Nat) (hlen : es.length = cap) (hcap : 0 < cap)
    (hk : k ≠ 0) (hrefl : eqf k k = true) :
    ∀ fuel idx i, idx < cap →
      insertLoop es cap eqf k fuel idx none = some (.empty i none) →
      getLoopO (es.set i ⟨k, v, false⟩) cap eqf k fuel idx = .foundVal v := by
  intro fuel
  induction fuel with
  | zero => intro idx i _ h; exact absurd h (by simp [insertLoop])
  | succ n ih =>
    intro idx i hidx h
    unfold insertLoop at h
    by_cases h1 : (entryAt es idx).key ≠ 0 ∨ (entryAt es idx).is_deleted = true
    · rw [if_pos h1] at h
      by_cases h2 : (entryAt es idx).key ≠ 0 ∧ eqf (entryAt es idx).key k = true
      · rw [if_pos h2] at h; simp at h
      · rw [if_neg h2] at h
        by_cases hdel : (entryAt es idx).is_deleted = true
        · rw [if_pos ⟨hdel, rfl⟩] at h
          have := insertLoop_fd_frozen es cap eqf k n _ idx _ _ h
          simp at this
        · rw [if_neg (fun hc => hdel hc.1)] at h
          have hi0 : (entryAt es i).key = 0 :=
            (insertLoop_empty_props es cap eqf k n _ none i none h).1
          have hk1 : (entryAt es idx).key ≠ 0 := h1.resolve_right hdel
          have hne : i ≠ idx := fun he => hk1 (he ▸ hi0)
          unfold getLoopO
          rw [entryAt_set_ne es i idx _ hne]
          rw [if_neg (fun hc => hk1 hc.1), if_neg h2]
          exact ih _ _ (Nat.mod_lt _ hcap) h
    · rw [if_neg h1] at h
      obtain ⟨rfl, -⟩ : idx = i ∧ (none : Option Nat) = none := by simpa using h
      unfold getLoopO
      rw [entryAt_set_self es idx _ (hlen ▸ hidx)]
      simp [hk, hrefl]

/-- After placing a fresh key into the recorded first tombstoned slot,
`ht_get` finds it there: the tombstoned slot sits on the probe chain
before the terminating virgin slot, and every chain slot before it is
unchanged, occupied and not equal to the key. -/
theorem getLoopO_after_reuse (es : List HtEntry) (cap : Nat) (eqf : Nat → Nat → Bool)
    (k v : Nat) (hlen : es.length = cap) (hcap : 0 < cap)
    (hk : k ≠ 0) (hrefl : eqf k k = true) :
    ∀ fuel idx i j, idx < cap →
      insertLoop es cap eqf k fuel idx none = some (.empty i (some j)) →
      getLoopO (es.set j ⟨k, v, false⟩) cap eqf k fuel idx = .foundVal v := by
  intro fuel
  induction fuel with
  | zero => intro idx i j _ h; exact absurd h (by simp [insertLoop])
  | succ n ih =>
    intro idx i j hidx h
    unfold insertLoop at h
    by_cases h1 : (entryAt es idx).key ≠ 0 ∨ (entryAt es idx).is_deleted = true
    · rw [if_pos h1] at h
      by_cases h2 : (entryAt es idx).key ≠ 0 ∧ eqf (entryAt es idx).key k = true
      · rw [if_pos h2] at h; simp at h
      · rw [if_neg h2] at h
        by_cases hdel : (entryAt es idx).is_deleted = true
        · rw [if_pos ⟨hdel, rfl⟩] at h
          obtain rfl : j = idx := by
            simpa using insertLoop_fd_frozen es cap eqf k n _ idx _ _ h
          unfold getLoopO
          rw [entryAt_set_self es j _ (hlen ▸ hidx)]
          simp [hk, hrefl]
        · rw [if_neg (fun hc => hdel hc.1)] at h
          have hjdel : (entryAt es j).is_deleted = true :=
            (insertLoop_fd_deleted es cap eqf k hcap n _ i j (Nat.mod_lt _ hcap) h).2
          have hk1 : (entryAt es idx).key ≠ 0 := h1.resolve_right hdel
          have hne : j ≠ idx := fun he => hdel (he ▸ hjdel)
          unfold getLoopO
          rw [entryAt_set_ne es j idx _ hne]
          rw [if_neg (fun hc => hk1 hc.1), if_neg h2]
          exact ih _ _ _ (Nat.mod_lt _ hcap) h
    · rw [if_neg h1] at h
      simp at h

/-! ### Resize preserves well-formedness -/

/-- The rehash sweep never changes the length of the new slot array. -/
theorem rehashAll_length (hash : Nat → Nat) (cap : Nat) :
    ∀ old acc n res, rehashAll hash cap old acc n = some res →
      res.1.length = acc.length := by
  intro old
  induction old with
  | nil =>
    intro acc n res h
    obtain rfl : (acc, n) = res := by simpa [rehashAll] using h
    rfl
  | cons e rest ih =>
    intro acc n res h
    unfold rehashAll at h
    by_cases hc : e.key ≠ 0 ∧ e.is_deleted = false
    · rw [if_pos hc] at h
      rcases hf : findFreeSlot acc cap cap (hash e.key % cap) with _ | idx
      · rw [hf] at h; simp at h
      · rw [hf] at h
        rw [ih _ _ _ h, List.length_set]
    · rw [if_neg hc] at h
      exact ih _ _ _ h

/-- A successful `_ht_resize` yields a well-formed table and preserves
the hash and equality capabilities. -/
theorem ht_resize_success (allocOk : Bool) (ht ht1 : Hashtable) (nc : Nat)
    (h : ht_resize allocOk ht nc = some (0, ht1)) :
    ht1.entries.length = ht1.capacity ∧ 0 < ht1.capacity ∧
    ht1.equals = ht.equals ∧ ht1.hash = ht.hash := by
  unfold ht_resize at h
  by_cases hA : allocOk = false
  · rw [if_pos hA] at h
    simp at h
  · rw [if_neg hA] at h
    rcases hR : rehashAll ht.hash (clampCap nc) ht.entries
        (List.replicate (clampCap nc) ⟨0, 0, false⟩) 0 with _ | ⟨newEs, m⟩
    · rw [hR] at h; simp at h
    · rw [hR] at h
      have hlen := rehashAll_length ht.hash (clampCap nc) ht.entries _ 0 (newEs, m) hR
      obtain rfl : ({ ht with
          entries := newEs, size := m, capacity := clampCap nc } : Hashtable) = ht1 := by
        simpa using h
      refine ⟨?_, ?_, rfl, rfl⟩
      · simpa using hlen
      · show 0 < clampCap nc
        unfold clampCap
        split <;> omega

/-! ### The insert/get round trip -/

/-- Core of the round trip: whatever a successful placement or
overwrite produced, looking the key up in the resulting table returns
the just-inserted value. -/
theorem insertFinish_get (ht1 ht' : Hashtable) (k v : Nat)
    (hlen : ht1.entries.length = ht1.capacity) (hcap : 0 < ht1.capacity)
    (hk : k ≠ 0) (hrefl : ht1.equals k k = true)
    (h : insertFinish ht1 k v
      (insertLoop ht1.entries ht1.capacity ht1.equals k ht1.capacity
        (ht1.hash k % ht1.capacity) none) = some (0, ht')) :
    ht_get (some ht') k = v := by
  rcases hL : insertLoop ht1.entries ht1.capacity ht1.equals k ht1.capacity
      (ht1.hash k % ht1.capacity) none with _ | st
  · rw [hL] at h; simp [insertFinish] at h
  · rcases st with i | ⟨i, fd⟩
    · rw [hL] at h
      have hget := getLoopO_after_found ht1.entries ht1.capacity ht1.equals k v
        ht1.capacity _ none i hL
      obtain rfl : ({ ht1 with
          entries := ht1.entries.set i
            ⟨(entryAt ht1.entries i).key, v, false⟩ } : Hashtable) = ht' := by
        simpa [insertFinish] using h
      simp [ht_get, getOutcome, hk, hget, eraseOutcome]
    · rcases fd with _ | j
      · rw [hL] at h
        have hget := getLoopO_after_fresh ht1.entries ht1.capacity ht1.equals k v
          hlen hcap hk hrefl ht1.capacity _ i (Nat.mod_lt _ hcap) hL
        obtain rfl : ({ ht1 with
            entries := ht1.entries.set i ⟨k, v, false⟩
            size := (ht1.size + 1) % U64 } : Hashtable) = ht' := by
          simpa [insertFinish] using h
        simp [ht_get, getOutcome, hk, hget, eraseOutcome]
      · rw [hL] at h
        have hget := getLoopO_after_reuse ht1.entries ht1.capacity ht1.equals k v
          hlen hcap hk hrefl ht1.capacity _ i j (Nat.mod_lt _ hcap) hL
        obtain rfl : ({ ht1 with
            entries := ht1.entries.set j ⟨k, v, false⟩ } : Hashtable) = ht' := by
          simpa [insertFinish] using h
        simp [ht_get, getOutcome, hk, hget, eraseOutcome]

/-- The full round trip, covering the optional grow-resize up front:
a successful `ht_insert` of a non-null key (under an equality
capability that accepts the key as equal to itself) makes `ht_get`
return the inserted value. -/
theorem insert_get_aux (allocOk : Bool) (ht ht' : Hashtable) (k v : Nat)
    (hlen : ht.entries.length = ht.capacity) (hcap : 0 < ht.capacity)
    (hk : k ≠ 0) (hrefl : ht.equals k k = true)
    (hins : ht_insert allocOk ht k v = some (0, ht')) :
    ht_get (some ht') k = v := by
  unfold ht_insert at hins
  rw [if_neg hk] at hins
  by_cases htrig : ht.size * 4 ≥ ht.capacity * 3
  · rw [if_pos htrig] at hins
    rcases hR : ht_resize allocOk ht (ht.capacity * 2 % U64) with _ | ⟨r, ht1⟩
    · rw [hR] at hins; simp [insertResolve] at hins
    · rw [hR] at hins
      by_cases hr : r = 0
      · subst hr
        obtain ⟨hlen1, hcap1, heq1, -⟩ := ht_resize_success allocOk ht ht1 _ hR
        rw [show insertResolve k v (some (0, ht1)) = insertFinish ht1 k v
            (insertLoop ht1.entries ht1.capacity ht1.equals k ht1.capacity
              (ht1.hash k % ht1.capacity) none) by simp [insertResolve]] at hins
        exact insertFinish_get ht1 ht' k v hlen1 hcap1 hk (heq1 ▸ hrefl) hins
      · rw [show insertResolve k v (some (r, ht1)) = some (-1, ht1) by
          simp [insertResolve, if_pos hr]] at hins
        simp at hins
  · rw [if_neg htrig] at hins
    rw [show insertResolve k v (some (0, ht)) = insertFinish ht k v
        (insertLoop ht.entries ht.capacity ht.equals k ht.capacity
          (ht.hash k % ht.capacity) none) by simp [insertResolve]] at hins
    exact insertFinish_get ht ht' k v hlen hcap hk hrefl hins

/-- C6: for every well-formed table, non-null key (accepted as equal to
itself by the table's equality capability) and value, a successful
`ht_insert` immediately followed by `ht_get` on the same key returns the
inserted value — covering the overwrite case, placement into a virgin
slot, reuse of a tombstoned slot, and a triggered grow-resize. -/
theorem claim_C6_insert_get_roundtrip (allocOk : Bool) (ht ht' : Hashtable) (k v : Nat)
    (hlen : ht.entries.length = ht.capacity) (hcap : 0 < ht.capacity)
    (hk : k ≠ 0) (hrefl : ht.equals k k = true)
    (hins : ht_insert allocOk ht k v = some (0, ht')) :
    ht_get (some ht') k = v :=
  insert_get_aux allocOk ht ht' k v hlen hcap hk hrefl hins

/-- Witness for C6: inserting key 7 with value 42 into a fresh
capacity-8 table and reading it back. -/
theorem claim_C6_witness : ht_get (some tFresh7) 7 = 42 :=
  claim_C6_insert_get_roundtrip true tFresh tFresh7 7 42
    (by decide) (by decide) (by decide) (by decide) rfl

/-- C9: `ht_get` returns the stored value itself, so a key stored with
the null value 0 is indistinguishable from an absent key: `ht_get`
returns 0 for a null table, for a null key, and for a key whose stored
value is 0 — with no separate not-found signal in the return value. -/
theorem claim_C9_null_value_indistinguishable :
    (∀ k, ht_get none k = 0) ∧
    (∀ ht, ht_get (some ht) 0 = 0) ∧
    (∀ allocOk (ht ht' : Hashtable) k,
      ht.entries.length = ht.capacity → 0 < ht.capacity →
      k ≠ 0 → ht.equals k k = true →
      ht_insert allocOk ht k 0 = some (0, ht') →
      ht_get (some ht') k = 0) :=
  ⟨fun _ => rfl, fun _ => rfl,
    fun allocOk ht ht' k hlen hcap hk hrefl hins =>
      insert_get_aux allocOk ht ht' k 0 hlen hcap hk hrefl hins⟩

/-- Witness for C9: key 9 stored with the null value reads back as 0,
exactly like a lookup on a null table. -/
theorem claim_C9_witness : ht_get (some tFresh9) 9 = 0 ∧ ht_get none 9 = 0 :=
  ⟨claim_C9_null_value_indistinguishable.2.2 true tFresh tFresh9 9
      (by decide) (by decide) (by decide) (by decide) rfl,
    claim_C9_null_value_indistinguishable.1 9⟩

/-- The `ht_get` probe loop computes exactly the spec's first-stop
semantics, step by step. -/
theorem getLoopO_spec (es : List HtEntry) (cap : Nat) (eqf : Nat → Nat → Bool)
    (k h : Nat) :
    ∀ f s, s + f = cap →
      getLoopO es cap eqf k f (specProbe cap h s) =
      (match (List.range' s f).find? (specStop es cap eqf k h) with
       | none => .notFoundFull
       | some t => specOutcomeAt es cap eqf k h t) := by
  intro f
  induction f with
  | zero => intro s _; rfl
  | succ n ih =>
    intro s hs
    rw [List.range'_succ]
    by_cases hv : (entryAt es (specProbe cap h s)).key = 0 ∧
        (entryAt es (specProbe cap h s)).is_deleted = false
    · rw [List.find?_cons_of_pos _ (by simp [specStop, hv.1, hv.2])]
      unfold getLoopO
      rw [if_pos hv]
      simp [specOutcomeAt, hv.1]
    · by_cases hm : (entryAt es (specProbe cap h s)).key ≠ 0 ∧
          eqf (entryAt es (specProbe cap h s)).key k = true
      · rw [List.find?_cons_of_pos _ (by simp [specStop, hm.1, hm.2])]
        unfold getLoopO
        rw [if_neg hv, if_pos hm]
        simp [specOutcomeAt, hm.1, hm.2]
      · rw [List.find?_cons_of_neg _ (by simp [specStop, hv, hm])]
        unfold getLoopO
        rw [if_neg hv, if_neg hm]
        have hnext : (specProbe cap h s + 1) % cap = specProbe cap h (s + 1) := by
          simp [specProbe, Nat.mod_add_mod, Nat.add_assoc]
        rw [hnext]
        exact ih (s + 1) (by omega)

/-- C7: `ht_get` starts at `hash(k) % capacity`, steps +1 mod capacity,
and reports not-found exactly when it reaches a virgin-empty slot
(tombstoned slots do not stop it) or has probed all `capacity` slots
without a match: its outcome coincides with the spec-worded first-stop
lookup, and the returned pointer is that outcome's value (0 on either
kind of miss).  The model of lookup is a pure function — it has no
table to return because the C code writes nothing. -/
theorem claim_C7_get_follows_spec (ht : Hashtable) (k : Nat)
    (hcap : 0 < ht.capacity) (hk : k ≠ 0) :
    ht_get (some ht) k = eraseOutcome (getOutcome ht k) ∧
    getOutcome ht k = lookupSpec ht k := by
  constructor
  · simp [ht_get, hk]
  · unfold getOutcome lookupSpec
    have h0 : ht.hash k % ht.capacity =
        specProbe ht.capacity (ht.hash k % ht.capacity) 0 := by
      show _ = (_ + 0) % _
      rw [Nat.add_zero, Nat.mod_eq_of_lt (Nat.mod_lt _ hcap)]
    rw [h0, getLoopO_spec ht.entries ht.capacity ht.equals k _ ht.capacity 0
      (by omega), List.range_eq_range', ← h0]

/-- Witness for C7 on the reachable table with a tombstone at the head
of the chain: looking up key 2 walks through the tombstone and agrees
with the spec lookup. -/
theorem claim_C7_witness :
    ht_get (some tTomb) 2 = eraseOutcome (getOutcome tTomb 2) ∧
    getOutcome tTomb 2 = lookupSpec tTomb 2 :=
  claim_C7_get_follows_spec tTomb 2 (by decide) (by decide)
